import Mathlib

/-!
Verification development for the chunk-manager component of a media loader
(`src/lib/chunk-manager.ts`).  The component keeps a registry of parsed HLS
playlists, resolves chunk URLs to playlist segments, serializes truncated
live playlists, and runs a single-slot chunk-load session protocol driven by
transport events.

The embedding is shallow: JavaScript strings are lists of characters,
the JS `Map` is an association list with `Map.set`/`Map.delete`/`Map.values`
semantics, callbacks are values of an abstract type, the byte transport and
the m3u8 parser are oracles passed in as parameters, and `throw` is modelled
with `Option`/`Except`.
-/

namespace PML

/-- JavaScript strings are embedded as lists of characters. -/
abbrev Str := List Char

/-- Convert a Lean string literal to the character-list embedding. -/
def str (s : String) : Str := s.toList

/-- JS `String.prototype.endsWith`: `jsEndsWith s t` is true iff `t` is a
suffix of `s`. -/
def jsEndsWith (s t : Str) : Bool := decide (t <:+ s)

/-- JS `String.prototype.lastIndexOf` for a single character, returning
`none` for the JS result `-1`. -/
def lastIndexOf (c : Char) : Str → Option Nat
  | [] => none
  | a :: as =>
    match lastIndexOf c as with
    | some i => some (i + 1)
    | none => if a = c then some 0 else none

/-- One segment of a parsed manifest, as produced by the external
m3u8 parser: a relative URI and a duration.  The duration is only ever
concatenated into output text, so it is embedded by its rendered text. -/
structure Segment where
  duration : Str
  uri : Str
  deriving DecidableEq

/-- The manifest structure produced by the external m3u8 parser, restricted
to the fields this component reads.  Each optional header field is `some v`
when the JS field is truthy (rendering as the text `v`) and `none` when the
field is absent or falsy, matching the `if (m.field)` guards in the code. -/
structure Manifest where
  segments : List Segment
  endList : Bool
  playlistType : Option Str
  targetDuration : Option Str
  mediaSequence : Option Str
  discontinuitySequence : Option Str
  deriving DecidableEq

/-- The `Playlist` class: source URL, base URL derived in the constructor,
and the parsed manifest. -/
structure Playlist where
  url : Str
  baseUrl : Str
  manifest : Manifest
  deriving DecidableEq

/-- The `Playlist` constructor.  `none` models the constructor throwing
`"Unexpected playlist URL format"` when the URL has no `/`; otherwise
`baseUrl` is `url.substring(0, pos + 1)` for `pos = url.lastIndexOf("/")`. -/
def mkPlaylist (url : Str) (manifest : Manifest) : Option Playlist :=
  match lastIndexOf '/' url with
  | none => none
  | some pos => some { url := url, baseUrl := url.take (pos + 1), manifest := manifest }

/-- The scanning loop of `Playlist.getChunkIndex`: first segment whose URI is
a suffix of `url`, as an offset into the given list. -/
def getChunkIndexList (url : Str) : List Segment → Option Nat
  | [] => none
  | seg :: rest =>
    if jsEndsWith url seg.uri then some 0
    else (getChunkIndexList url rest).map (· + 1)

/-- `Playlist.getChunkIndex`: index of the first segment whose URI is a
suffix of `url`, with `none` for the JS result `-1`. -/
def Playlist.getChunkIndex (p : Playlist) (url : Str) : Option Nat :=
  getChunkIndexList url p.manifest.segments

/-- `Playlist.limitedContentAvail`: no end-list marker and at least one
segment. -/
def Playlist.limitedContentAvail (p : Playlist) : Bool :=
  !p.manifest.endList && decide (0 < p.manifest.segments.length)

/-- Rendering of one optional header tag: emitted only when the manifest
field is truthy (`some`), as `tag + value + "\n"`. -/
def optionalTag (tag : Str) : Option Str → Str
  | none => []
  | some v => tag ++ v ++ [Char.ofNat 10]

/-- Rendering of one segment in the truncation loop:
an `EXTINF` duration line followed by the URI line. -/
def segmentPair (s : Segment) : Str :=
  str "#EXTINF:" ++ s.duration ++ [Char.ofNat 10] ++ s.uri ++ [Char.ofNat 10]

/-- `Playlist.getLimitedContent`: `none` models the throw on a non-limitable
manifest; otherwise the fixed two-line header, the four optional tags, and
one `segmentPair` per loop iteration `0 ≤ i < segments.length - limit`
(JS numeric subtraction with a non-positive bound runs zero iterations,
matching truncated `Nat` subtraction). -/
def Playlist.getLimitedContent (p : Playlist) (limit : Nat) : Option Str :=
  if p.limitedContentAvail then
    some (str "#EXTM3U\n#EXT-X-VERSION:3\n"
      ++ optionalTag (str "#EXT-X-PLAYLIST-TYPE:") p.manifest.playlistType
      ++ optionalTag (str "#EXT-X-TARGETDURATION:") p.manifest.targetDuration
      ++ optionalTag (str "#EXT-X-MEDIA-SEQUENCE:") p.manifest.mediaSequence
      ++ optionalTag (str "#EXT-X-DISCONTINUITY-SEQUENCE:") p.manifest.discontinuitySequence
      ++ ((p.manifest.segments.take (p.manifest.segments.length - limit)).map segmentPair).flatten)
  else none

/-- The `Chunk` class: resolved target URL of the active session and the two
caller callbacks, drawn from an abstract callback type `κ`. -/
structure Chunk (κ : Type) where
  url : Str
  onSuccess : κ
  onError : κ
  deriving DecidableEq

/-- JS `Map.prototype.set` on an association list: replace in place when the
key exists (keeping insertion order), append otherwise. -/
def mapSet (k : Str) (v : Playlist) : List (Str × Playlist) → List (Str × Playlist)
  | [] => [(k, v)]
  | (k', v') :: rest => if k' = k then (k, v) :: rest else (k', v') :: mapSet k v rest

/-- JS `Map.prototype.delete` on an association list. -/
def mapDelete (k : Str) (m : List (Str × Playlist)) : List (Str × Playlist) :=
  m.filter (fun e => decide (e.1 ≠ k))

/-- JS `Map.prototype.get` on an association list. -/
def mapGet (k : Str) : List (Str × Playlist) → Option Playlist
  | [] => none
  | (k', v) :: rest => if k' = k then some v else mapGet k rest

/-- State of a `ChunkManager`: the playlist registry (`Map` in insertion
order) and the nullable single chunk-session slot. -/
structure CMState (κ : Type) where
  playlists : List (Str × Playlist)
  chunk : Option (Chunk κ)
  deriving DecidableEq

/-- Errors escaping this component: `ext` wraps an error thrown by one of
the external adapters (fetch or parse), `thrown` a string thrown by this
component's own code. -/
inductive JsError (ε : Type) where
  | ext : ε → JsError ε
  | thrown : Str → JsError ε
  deriving DecidableEq

namespace ChunkManager

/-- `ChunkManager.processHlsPlaylist`: run the parser oracle on the content,
construct a `Playlist` (which may throw), and store it in the registry under
`url`.  Returns the new state and the playlist, or the old state and the
error. -/
def processHlsPlaylist {κ ε : Type} (parse : Str → Except ε Manifest)
    (s : CMState κ) (url content : Str) :
    CMState κ × Except (JsError ε) Playlist :=
  match parse content with
  | .error e => (s, .error (.ext e))
  | .ok m =>
    match mkPlaylist url m with
    | none => (s, .error (.thrown (str "Unexpected playlist URL format")))
    | some p => ({ s with playlists := mapSet url p s.playlists }, .ok p)

/-- `ChunkManager.loadHlsPlaylist`: fetch the playlist text (the fetch
oracle's outcome is a parameter), process it, and return either the
truncated document (when `limitedContentAvail`, with
`limit = trunc(segments.length / 2)`) or the raw content.  On any error the
`catch` block deletes the registry entry for `url` and rethrows. -/
def loadHlsPlaylist {κ ε : Type} (fetchResult : Except ε Str)
    (parse : Str → Except ε Manifest) (s : CMState κ) (url : Str) :
    CMState κ × Except (JsError ε) Str :=
  let attempt : CMState κ × Except (JsError ε) Str :=
    match fetchResult with
    | .error e => (s, .error (.ext e))
    | .ok content =>
      match processHlsPlaylist parse s url content with
      | (s', .error e) => (s', .error e)
      | (s', .ok p) =>
        if p.limitedContentAvail then
          match p.getLimitedContent (p.manifest.segments.length / 2) with
          | none =>
            (s', .error (.thrown (str "Limited content allowed only for Live playlist with segments")))
          | some c => (s', .ok c)
        else (s', .ok content)
  match attempt with
  | (s', .error e) => ({ s' with playlists := mapDelete url s'.playlists }, .error e)
  | (s', .ok c) => (s', .ok c)

/-- The scanning loop of `ChunkManager.getChunkLocation` over the registry's
values in insertion order: the first playlist reporting a chunk index. -/
def findChunkLocation (url : Str) : List Playlist → Option (Playlist × Nat)
  | [] => none
  | p :: rest =>
    match p.getChunkIndex url with
    | some i => some (p, i)
    | none => findChunkLocation url rest

/-- `ChunkManager.getChunkLocation`, with `none` for the
`{playlist: null, chunkIndex: -1}` result. -/
def getChunkLocation {κ : Type} (s : CMState κ) (url : Str) :
    Option (Playlist × Nat) :=
  findChunkLocation url (s.playlists.map Prod.snd)

/-- `ChunkManager.loadChunk`: build the candidate file URL list (the located
segment plus all later segments of its playlist, or the literal `url`),
install a new session keyed by `files[0].url`, and hand the list plus the
context key to the transport.  The result pairs the new state with the
transport call's arguments; `none` models the member access `files[0].url`
throwing on an empty list. -/
def loadChunk {κ : Type} (s : CMState κ) (url : Str) (onSuccess onError : κ) :
    Option (CMState κ × (List Str × Str)) :=
  let loc := getChunkLocation s url
  let files : List Str :=
    match loc with
    | some (p, i) => (p.manifest.segments.drop i).map (fun seg => p.baseUrl ++ seg.uri)
    | none => [url]
  let contextKey : Str := match loc with | some (p, _) => p.url | none => url
  match files with
  | [] => none
  | f0 :: rest =>
    some ({ s with chunk := some ⟨f0, onSuccess, onError⟩ }, (f0 :: rest, contextKey))

/-- `ChunkManager.abortChunk`: clear the slot when the active session's URL
equals the argument. -/
def abortChunk {κ : Type} (s : CMState κ) (url : Str) : CMState κ :=
  match s.chunk with
  | some c => if c.url = url then { s with chunk := none } else s
  | none => s

/-- Transport `FileLoaded` handler: when the active session's URL equals the
event file's URL, invoke `onSuccess` with the file's data and clear the slot.
The result pairs the new state with the invoked callback and its argument
(`none` when no callback fires). -/
def onFileLoaded {κ δ : Type} (s : CMState κ) (url : Str) (data : δ) :
    CMState κ × Option (κ × δ) :=
  match s.chunk with
  | some c =>
    if c.url = url then ({ s with chunk := none }, some (c.onSuccess, data))
    else (s, none)
  | none => (s, none)

/-- Transport `FileError` handler, symmetric to `onFileLoaded` with
`onError`. -/
def onFileError {κ η : Type} (s : CMState κ) (url : Str) (error : η) :
    CMState κ × Option (κ × η) :=
  match s.chunk with
  | some c =>
    if c.url = url then ({ s with chunk := none }, some (c.onError, error))
    else (s, none)
  | none => (s, none)

end ChunkManager

/-- Specification-side rendering of the truncated playlist document,
written from the spec's words for `renderTruncated(keepLastN)`: a fixed
two-line header, each optional header tag emitted iff its manifest field is
truthy, then one duration/URI pair per retained segment — all segments
except the last `keepLastN`, in original order — and no end-of-list
marker.  Compared against the code-side `Playlist.getLimitedContent`. -/
def renderTruncatedSpec (m : Manifest) (keepLastN : Nat) : Str :=
  str "#EXTM3U\n#EXT-X-VERSION:3\n"
  ++ optionalTag (str "#EXT-X-PLAYLIST-TYPE:") m.playlistType
  ++ optionalTag (str "#EXT-X-TARGETDURATION:") m.targetDuration
  ++ optionalTag (str "#EXT-X-MEDIA-SEQUENCE:") m.mediaSequence
  ++ optionalTag (str "#EXT-X-DISCONTINUITY-SEQUENCE:") m.discontinuitySequence
  ++ ((m.segments.rdrop keepLastN).map segmentPair).flatten

/-! ### Concrete fixtures used by witnesses and counterexamples -/

/-- A concrete live manifest with two segments `a` and `b`. -/
def mFix : Manifest :=
  { segments := [⟨str "4", str "a"⟩, ⟨str "5", str "b"⟩], endList := false,
    playlistType := some (str "EVENT"), targetDuration := some (str "5"),
    mediaSequence := none, discontinuitySequence := none }

/-- The playlist the `Playlist` constructor builds from URL `h/p` and
`mFix` (base URL `h/`). -/
def pFix : Playlist := ⟨str "h/p", str "h/", mFix⟩

/-- A registry holding `pFix` under its URL, with an empty session slot. -/
def sFix : CMState Nat := ⟨[(str "h/p", pFix)], none⟩

/-- A concrete VOD manifest (end-list marker present, one segment). -/
def mVod : Manifest :=
  { segments := [⟨str "4", str "a"⟩], endList := true, playlistType := none,
    targetDuration := none, mediaSequence := none, discontinuitySequence := none }

/-! ### Helper lemmas about the segment-index scan -/

lemma getChunkIndexList_some_lt {url : Str} {l : List Segment} {i : Nat}
    (h : getChunkIndexList url l = some i) : i < l.length := by
  induction l generalizing i with
  | nil => simp [getChunkIndexList] at h
  | cons seg rest ih =>
    simp only [getChunkIndexList] at h
    rcases hs : jsEndsWith url seg.uri with _ | _
    · rw [hs] at h
      simp only [Bool.false_eq_true, if_false, Option.map_eq_some'] at h
      obtain ⟨i', h1, h2⟩ := h
      have := ih h1
      simp only [List.length_cons]
      omega
    · rw [hs] at h
      simp only [if_true, Option.some.injEq] at h
      simp [← h]

lemma getChunkIndexList_some_iff {url : Str} {l : List Segment} {i : Nat} :
    getChunkIndexList url l = some i ↔
      ∃ hi : i < l.length, jsEndsWith url (l.get ⟨i, hi⟩).uri = true ∧
        ∀ j (hj : j < l.length), j < i → jsEndsWith url (l.get ⟨j, hj⟩).uri = false := by
  induction l generalizing i with
  | nil => simp [getChunkIndexList]
  | cons seg rest ih =>
    simp only [getChunkIndexList]
    rcases hs : jsEndsWith url seg.uri with _ | _
    · simp only [Bool.false_eq_true, if_false, Option.map_eq_some']
      constructor
      · rintro ⟨i', h1, h2⟩
        obtain ⟨hi', hsuf, hmin⟩ := ih.mp h1
        subst h2
        refine ⟨by simpa using Nat.succ_lt_succ hi', by simpa using hsuf, ?_⟩
        rintro (_ | j) hj hlt
        · simpa using hs
        · exact hmin j (by simpa using Nat.lt_of_succ_lt_succ hj) (Nat.lt_of_succ_lt_succ hlt)
      · rintro ⟨hi, hsuf, hmin⟩
        rcases i with _ | i
        · exact absurd (show jsEndsWith url seg.uri = true from hsuf) (by simp [hs])
        · refine ⟨i, ih.mpr ⟨Nat.lt_of_succ_lt_succ hi, by simpa using hsuf, ?_⟩, rfl⟩
          intro j hj hlt
          exact hmin (j + 1) (by simpa using Nat.succ_lt_succ hj) (Nat.succ_lt_succ hlt)
    · simp only [if_true]
      constructor
      · rintro h
        injection h with h
        subst h
        exact ⟨by simp, by simpa using hs, by omega⟩
      · rintro ⟨hi, _, hmin⟩
        rcases i with _ | i
        · rfl
        · have h0 := hmin 0 (by simp) (by omega)
          exact absurd (show jsEndsWith url seg.uri = false from h0) (by simp [hs])

lemma getChunkIndexList_none_iff {url : Str} {l : List Segment} :
    getChunkIndexList url l = none ↔
      ∀ j (hj : j < l.length), jsEndsWith url (l.get ⟨j, hj⟩).uri = false := by
  induction l with
  | nil => simp [getChunkIndexList]
  | cons seg rest ih =>
    simp only [getChunkIndexList]
    rcases hs : jsEndsWith url seg.uri with _ | _
    · simp only [Bool.false_eq_true, if_false, Option.map_eq_none', ih]
      constructor
      · rintro hmin (_ | j) hj
        · simpa using hs
        · exact hmin j (by simpa using Nat.lt_of_succ_lt_succ hj)
      · intro hmin j hj
        exact hmin (j + 1) (by simpa using Nat.succ_lt_succ hj)
    · simp only [if_true]
      constructor
      · rintro h; exact absurd h (by simp)
      · intro hmin
        have h0 := hmin 0 (by simp)
        exact absurd (show jsEndsWith url seg.uri = false from h0) (by simp [hs])

/-! ### Helper lemmas about chunk location and `loadChunk` -/

lemma findChunkLocation_some {url : Str} {pls : List Playlist} {p : Playlist} {i : Nat}
    (h : ChunkManager.findChunkLocation url pls = some (p, i)) :
    p ∈ pls ∧ p.getChunkIndex url = some i := by
  induction pls with
  | nil => simp [ChunkManager.findChunkLocation] at h
  | cons q rest ih =>
    simp only [ChunkManager.findChunkLocation] at h
    rcases hq : q.getChunkIndex url with _ | j
    · rw [hq] at h
      obtain ⟨hmem, hidx⟩ := ih h
      exact ⟨List.mem_cons_of_mem q hmem, hidx⟩
    · rw [hq] at h
      injection h with h
      obtain ⟨rfl, rfl⟩ := Prod.mk.inj h
      exact ⟨List.mem_cons_self q rest, hq⟩

lemma loadChunk_of_location_some {κ : Type} {s : CMState κ} {url : Str} {p : Playlist}
    {i : Nat} (ok err : κ) (hloc : ChunkManager.getChunkLocation s url = some (p, i))
    {a : Segment} {rest : List Segment} (hdrop : p.manifest.segments.drop i = a :: rest) :
    ChunkManager.loadChunk s url ok err =
      some ({ s with chunk := some ⟨p.baseUrl ++ a.uri, ok, err⟩ },
        ((a :: rest).map fun seg => p.baseUrl ++ seg.uri, p.url)) := by
  simp [ChunkManager.loadChunk, hloc, hdrop]

lemma loadChunk_of_location_none {κ : Type} {s : CMState κ} {url : Str} (ok err : κ)
    (hloc : ChunkManager.getChunkLocation s url = none) :
    ChunkManager.loadChunk s url ok err =
      some ({ s with chunk := some ⟨url, ok, err⟩ }, ([url], url)) := by
  simp [ChunkManager.loadChunk, hloc]

lemma loadChunk_total {κ : Type} (s : CMState κ) (url : Str) (ok err : κ) :
    ∃ f0 fs ctx, ChunkManager.loadChunk s url ok err =
      some ({ s with chunk := some ⟨f0, ok, err⟩ }, (f0 :: fs, ctx)) := by
  rcases hloc : ChunkManager.getChunkLocation s url with _ | ⟨p, i⟩
  · exact ⟨url, [], url, loadChunk_of_location_none ok err hloc⟩
  · have hi : i < p.manifest.segments.length :=
      getChunkIndexList_some_lt (findChunkLocation_some hloc).2
    rcases hdrop : p.manifest.segments.drop i with _ | ⟨a, rest⟩
    · have := List.drop_eq_nil_iff.mp hdrop
      omega
    · exact ⟨p.baseUrl ++ a.uri, rest.map fun seg => p.baseUrl ++ seg.uri, p.url,
        by simpa using loadChunk_of_location_some ok err hloc hdrop⟩

lemma loadChunk_inv {κ : Type} {s st : CMState κ} {url : Str} {ok err : κ}
    {call : List Str × Str} (h : ChunkManager.loadChunk s url ok err = some (st, call)) :
    st.playlists = s.playlists ∧ ∃ f0, st.chunk = some ⟨f0, ok, err⟩ := by
  obtain ⟨f0, fs, ctx, heq⟩ := loadChunk_total s url ok err
  rw [heq] at h
  injection h with h
  obtain ⟨h1, _⟩ := Prod.mk.inj h
  rw [← h1]
  exact ⟨rfl, f0, rfl⟩

/-! ### Helper lemmas about `lastIndexOf` and the registry map -/

lemma lastIndexOf_eq_none_iff {c : Char} {l : Str} : lastIndexOf c l = none ↔ c ∉ l := by
  induction l with
  | nil => simp [lastIndexOf]
  | cons a as ih =>
    rcases h : lastIndexOf c as with _ | i
    · have has : c ∉ as := ih.mp h
      simp only [lastIndexOf, h]
      by_cases hac : a = c
      · simp [hac]
      · have hca : c ≠ a := fun hh => hac hh.symm
        simp [hac, has, hca]
    · have has : c ∈ as := by
        by_contra hcon
        rw [ih.mpr hcon] at h
        exact Option.noConfusion h
      simp only [lastIndexOf, h]
      simp [List.mem_cons, has]

lemma lastIndexOf_split {c : Char} {l : Str} {i : Nat} (h : lastIndexOf c l = some i) :
    ∃ pre post, l = pre ++ c :: post ∧ pre.length = i ∧ c ∉ post := by
  induction l generalizing i with
  | nil => simp [lastIndexOf] at h
  | cons a as ih =>
    rcases hr : lastIndexOf c as with _ | j
    · simp only [lastIndexOf, hr] at h
      by_cases hac : a = c
      · rw [if_pos hac] at h
        injection h with h
        exact ⟨[], as, by simp [hac], by simp [← h], lastIndexOf_eq_none_iff.mp hr⟩
      · rw [if_neg hac] at h
        exact Option.noConfusion h
    · simp only [lastIndexOf, hr] at h
      injection h with h
      obtain ⟨pre, post, heq, hlen, hpost⟩ := ih hr
      exact ⟨a :: pre, post, by simp [heq], by simp [hlen, ← h], hpost⟩

lemma take_append_cons {α : Type} (pre : List α) (c : α) (post : List α) :
    (pre ++ c :: post).take (pre.length + 1) = pre ++ [c] := by
  induction pre with
  | nil => simp
  | cons x xs ih => simp [ih]

lemma mapGet_mapDelete_self (k : Str) (l : List (Str × Playlist)) :
    mapGet k (mapDelete k l) = none := by
  induction l with
  | nil => rfl
  | cons e rest ih =>
    rcases e with ⟨k', v⟩
    simp only [mapDelete, List.filter_cons] at ih ⊢
    by_cases h : k' = k
    · simpa [h] using ih
    · simpa [h, mapGet] using ih

lemma mapGet_mapDelete_ne {k u : Str} (hne : u ≠ k) (l : List (Str × Playlist)) :
    mapGet u (mapDelete k l) = mapGet u l := by
  induction l with
  | nil => rfl
  | cons e rest ih =>
    rcases e with ⟨k', v⟩
    simp only [mapDelete, List.filter_cons] at ih ⊢
    simp only [ne_eq, decide_not] at ih ⊢
    by_cases h : k' = k
    · have hku : k ≠ u := fun hh => hne hh.symm
      simp [h, mapGet, hku, ih]
    · simp [h, mapGet, ih]

lemma getLimitedContent_eq_of_avail {p : Playlist} (h : p.limitedContentAvail = true)
    (n : Nat) :
    p.getLimitedContent n =
      some (str "#EXTM3U\n#EXT-X-VERSION:3\n"
        ++ optionalTag (str "#EXT-X-PLAYLIST-TYPE:") p.manifest.playlistType
        ++ optionalTag (str "#EXT-X-TARGETDURATION:") p.manifest.targetDuration
        ++ optionalTag (str "#EXT-X-MEDIA-SEQUENCE:") p.manifest.mediaSequence
        ++ optionalTag (str "#EXT-X-DISCONTINUITY-SEQUENCE:") p.manifest.discontinuitySequence
        ++ ((p.manifest.segments.take (p.manifest.segments.length - n)).map
              segmentPair).flatten) := by
  simp [Playlist.getLimitedContent, h]

/-! ### Claim theorems -/

/-- C3: a transport `file-loaded(file)` event invokes the active session's
`onSuccess` with the file's data and empties the slot exactly when a session
is active and its URL equals the file's URL; any non-matching event leaves
the state untouched and fires nothing; `file-error` behaves symmetrically
with `onError`; and after a matching dispatch the emptied slot fires no
further callback, so each session fires at most one callback. -/
theorem chunk_event_dispatch {κ δ η : Type} (s : CMState κ) (url : Str) (d : δ) (e : η) :
    (∀ c, s.chunk = some c → c.url = url →
        ChunkManager.onFileLoaded s url d = ({ s with chunk := none }, some (c.onSuccess, d)) ∧
        ChunkManager.onFileError s url e = ({ s with chunk := none }, some (c.onError, e))) ∧
    (∀ c, s.chunk = some c → c.url ≠ url →
        ChunkManager.onFileLoaded s url d = (s, none) ∧
        ChunkManager.onFileError s url e = (s, none)) ∧
    (s.chunk = none →
        ChunkManager.onFileLoaded s url d = (s, none) ∧
        ChunkManager.onFileError s url e = (s, none)) ∧
    (∀ c, s.chunk = some c → c.url = url → ∀ (url' : Str) (d' : δ) (e' : η),
        (ChunkManager.onFileLoaded (ChunkManager.onFileLoaded s url d).1 url' d').2 = none ∧
        (ChunkManager.onFileError (ChunkManager.onFileLoaded s url d).1 url' e').2 = none ∧
        (ChunkManager.onFileLoaded (ChunkManager.onFileError s url e).1 url' d').2 = none ∧
        (ChunkManager.onFileError (ChunkManager.onFileError s url e).1 url' e').2 = none) := by
  refine ⟨?_, ?_, ?_, ?_⟩
  · intro c hc hurl
    simp [ChunkManager.onFileLoaded, ChunkManager.onFileError, hc, hurl]
  · intro c hc hurl
    simp [ChunkManager.onFileLoaded, ChunkManager.onFileError, hc, hurl]
  · intro hc
    simp [ChunkManager.onFileLoaded, ChunkManager.onFileError, hc]
  · intro c hc hurl url' d' e'
    simp [ChunkManager.onFileLoaded, ChunkManager.onFileError, hc, hurl]

/-- Witness for C3 at a concrete state: a matching `file-loaded` event
invokes the success callback with the data and clears the slot. -/
theorem chunk_event_dispatch_witness :
    ChunkManager.onFileLoaded (⟨[], some ⟨str "u", 0, 1⟩⟩ : CMState Nat) (str "u") (7 : Nat)
      = (⟨[], none⟩, some (0, 7)) :=
  ((chunk_event_dispatch (⟨[], some ⟨str "u", 0, 1⟩⟩ : CMState Nat) (str "u") (7 : Nat)
      (9 : Nat)).1 ⟨str "u", 0, 1⟩ rfl rfl).1

/-- C8: `getChunkIndex` returns the lowest index whose segment URI is a
suffix of the candidate URL, and `none` (the JS `-1`) when no segment URI is
a suffix of the candidate URL. -/
theorem getChunkIndex_first_suffix (p : Playlist) (url : Str) :
    (∀ i, p.getChunkIndex url = some i ↔
      ∃ hi : i < p.manifest.segments.length,
        jsEndsWith url (p.manifest.segments.get ⟨i, hi⟩).uri = true ∧
        ∀ j (hj : j < p.manifest.segments.length), j < i →
          jsEndsWith url (p.manifest.segments.get ⟨j, hj⟩).uri = false) ∧
    (p.getChunkIndex url = none ↔
      ∀ j (hj : j < p.manifest.segments.length),
        jsEndsWith url (p.manifest.segments.get ⟨j, hj⟩).uri = false) :=
  ⟨fun _ => getChunkIndexList_some_iff, getChunkIndexList_none_iff⟩

/-- Witness for C8: in `pFix`, the URL `x/b` matches segment `b` at
index `1` and no earlier segment. -/
theorem getChunkIndex_first_suffix_witness :
    Playlist.getChunkIndex pFix (str "x/b") = some 1 :=
  ((getChunkIndex_first_suffix pFix (str "x/b")).1 1).mpr
    ⟨by decide, by decide, by decide⟩

/-- C1 counterexample: with registry `sFix`, `loadChunk "x/a"` suffix-matches
segment `a` and stores the resolved session URL `h/a`; the immediately
following `abortChunk "x/a"` compares against `h/a`, misses, and leaves the
session in place; the subsequent `file-loaded` event for the resolved target
`h/a` still invokes the success callback `0`, which the claim forbids. -/
theorem abort_after_load_counterexample :
    ChunkManager.loadChunk sFix (str "x/a") 0 1 =
      some (⟨[(str "h/p", pFix)], some ⟨str "h/a", 0, 1⟩⟩,
            ([str "h/a", str "h/b"], str "h/p")) ∧
    ChunkManager.abortChunk
        (⟨[(str "h/p", pFix)], some ⟨str "h/a", 0, 1⟩⟩ : CMState Nat) (str "x/a") =
      (⟨[(str "h/p", pFix)], some ⟨str "h/a", 0, 1⟩⟩ : CMState Nat) ∧
    (ChunkManager.onFileLoaded
        (ChunkManager.abortChunk
          (⟨[(str "h/p", pFix)], some ⟨str "h/a", 0, 1⟩⟩ : CMState Nat) (str "x/a"))
        (str "h/a") (7 : Nat)).2 = some (0, 7) :=
  ⟨by decide, by decide, by decide⟩

/-- C1 (amended): after `loadChunk(u, ok, err)` followed immediately by
`abortChunk(r)` where `r` is the session's resolved target URL
(`files[0].url`; equal to `u` exactly when the session URL and `u`
coincide, e.g. whenever `u` is found in no playlist), a subsequent
transport `file-loaded` or `file-error` event — for the resolved target or
any other URL — invokes neither `ok` nor `err`. -/
theorem abort_resolved_target_blocks_callbacks {κ δ η : Type} (s : CMState κ)
    (url : Str) (ok err : κ) {s1 : CMState κ} {call : List Str × Str}
    (h : ChunkManager.loadChunk s url ok err = some (s1, call))
    {c : Chunk κ} (hc : s1.chunk = some c) (url' : Str) (d : δ) (e : η) :
    (ChunkManager.onFileLoaded (ChunkManager.abortChunk s1 c.url) url' d).2 = none ∧
    (ChunkManager.onFileError (ChunkManager.abortChunk s1 c.url) url' e).2 = none := by
  have habort : ChunkManager.abortChunk s1 c.url = { s1 with chunk := none } := by
    simp [ChunkManager.abortChunk, hc]
  rw [habort]
  simp [ChunkManager.onFileLoaded, ChunkManager.onFileError]

/-- Witness for the amended C1 at the counterexample's own scenario:
aborting with the resolved URL `h/a` blocks the later event. -/
theorem abort_resolved_target_blocks_callbacks_witness :
    (ChunkManager.onFileLoaded
        (ChunkManager.abortChunk
          (⟨[(str "h/p", pFix)], some ⟨str "h/a", 0, 1⟩⟩ : CMState Nat) (str "h/a"))
        (str "h/a") (7 : Nat)).2 = none := by
  have h : ChunkManager.loadChunk sFix (str "x/a") 0 1 =
      some (⟨[(str "h/p", pFix)], some ⟨str "h/a", 0, 1⟩⟩,
            ([str "h/a", str "h/b"], str "h/p")) := by decide
  exact (abort_resolved_target_blocks_callbacks sFix (str "x/a") 0 1 h rfl
    (str "h/a") (7 : Nat) (9 : Nat)).1

/-- C2: after `loadChunk(u1, ok1, err1)` then `loadChunk(u2, ok2, err2)` with
no completion event in between, an event for session 1's resolved target
invokes nothing or session 2's own callback (never `ok1`/`err1`, which are
no longer stored anywhere), and an event for session 2's resolved target
invokes `ok2` on `file-loaded` and `err2` on `file-error`. -/
theorem supersede_second_session {κ δ η : Type} (s0 : CMState κ) (u1 u2 : Str)
    (ok1 err1 ok2 err2 : κ) {s1 s2 : CMState κ} {call1 call2 : List Str × Str}
    (h1 : ChunkManager.loadChunk s0 u1 ok1 err1 = some (s1, call1))
    (h2 : ChunkManager.loadChunk s1 u2 ok2 err2 = some (s2, call2))
    {c1 c2 : Chunk κ} (hc1 : s1.chunk = some c1) (hc2 : s2.chunk = some c2)
    (d : δ) (e : η) :
    ((ChunkManager.onFileLoaded s2 c1.url d).2 = none ∨
      (ChunkManager.onFileLoaded s2 c1.url d).2 = some (ok2, d)) ∧
    ((ChunkManager.onFileError s2 c1.url e).2 = none ∨
      (ChunkManager.onFileError s2 c1.url e).2 = some (err2, e)) ∧
    (ChunkManager.onFileLoaded s2 c2.url d).2 = some (ok2, d) ∧
    (ChunkManager.onFileError s2 c2.url e).2 = some (err2, e) := by
  obtain ⟨-, f0, hf⟩ := loadChunk_inv h2
  have hc2' : c2 = ⟨f0, ok2, err2⟩ := by
    rw [hf] at hc2
    exact (Option.some.inj hc2).symm
  subst hc2'
  refine ⟨?_, ?_, ?_, ?_⟩
  · by_cases hx : f0 = c1.url
    · right
      simp [ChunkManager.onFileLoaded, hf, hx]
    · left
      simp [ChunkManager.onFileLoaded, hf, hx]
  · by_cases hx : f0 = c1.url
    · right
      simp [ChunkManager.onFileError, hf, hx]
    · left
      simp [ChunkManager.onFileError, hf, hx]
  · simp [ChunkManager.onFileLoaded, hf]
  · simp [ChunkManager.onFileError, hf]

/-- Witness for C2 on an empty registry: two standalone loads `a` then `b`;
the event for `b` invokes session 2's success callback `2`. -/
theorem supersede_second_session_witness :
    (ChunkManager.onFileLoaded (⟨[], some ⟨str "b", 2, 3⟩⟩ : CMState Nat)
        (str "b") (7 : Nat)).2 = some (2, 7) := by
  have h1 : ChunkManager.loadChunk (⟨[], none⟩ : CMState Nat) (str "a") 0 1 =
      some (⟨[], some ⟨str "a", 0, 1⟩⟩, ([str "a"], str "a")) := by decide
  have h2 : ChunkManager.loadChunk (⟨[], some ⟨str "a", 0, 1⟩⟩ : CMState Nat) (str "b") 2 3 =
      some (⟨[], some ⟨str "b", 2, 3⟩⟩, ([str "b"], str "b")) := by decide
  exact (supersede_second_session (⟨[], none⟩ : CMState Nat) (str "a") (str "b")
    0 1 2 3 h1 h2 rfl rfl (7 : Nat) (9 : Nat)).2.2.1

/-- C5: `loadChunk` never throws; when the URL is located in a stored
playlist `p` at index `i`, the candidate file list handed to the transport
is exactly the resolved URLs of segments `i` through the last, in playlist
order and nonempty, with context key `p.url`; when the URL is located in no
playlist, the list is the single literal URL with context key the URL
itself. -/
theorem loadChunk_candidate_files {κ : Type} (s : CMState κ) (url : Str) (ok err : κ) :
    (∃ st cl, ChunkManager.loadChunk s url ok err = some (st, cl)) ∧
    (∀ p i, ChunkManager.getChunkLocation s url = some (p, i) →
      ∀ st cl, ChunkManager.loadChunk s url ok err = some (st, cl) →
        cl.1 = (p.manifest.segments.drop i).map (fun seg => p.baseUrl ++ seg.uri) ∧
        cl.2 = p.url ∧ cl.1 ≠ []) ∧
    (ChunkManager.getChunkLocation s url = none →
      ∀ st cl, ChunkManager.loadChunk s url ok err = some (st, cl) →
        cl.1 = [url] ∧ cl.2 = url) := by
  refine ⟨?_, ?_, ?_⟩
  · obtain ⟨f0, fs, ctx, heq⟩ := loadChunk_total s url ok err
    exact ⟨_, _, heq⟩
  · intro p i hloc st cl hload
    have hi : i < p.manifest.segments.length :=
      getChunkIndexList_some_lt (findChunkLocation_some hloc).2
    rcases hdrop : p.manifest.segments.drop i with _ | ⟨a, rest⟩
    · have := List.drop_eq_nil_iff.mp hdrop
      omega
    · rw [loadChunk_of_location_some ok err hloc hdrop] at hload
      injection hload with hload
      obtain ⟨-, hcl⟩ := Prod.mk.inj hload
      rw [← hcl]
      exact ⟨rfl, rfl, by simp⟩
  · intro hloc st cl hload
    rw [loadChunk_of_location_none ok err hloc] at hload
    injection hload with hload
    obtain ⟨-, hcl⟩ := Prod.mk.inj hload
    rw [← hcl]
    exact ⟨rfl, rfl⟩

/-- Witness for C5: in `sFix` the URL `x/b` is located at index `1` of
`pFix`, and the transport receives exactly the resolved tail `[h/b]`. -/
theorem loadChunk_candidate_files_witness :
    (([str "h/b"], str "h/p") : List Str × Str).1 =
      (pFix.manifest.segments.drop 1).map (fun seg => pFix.baseUrl ++ seg.uri) := by
  have h := (loadChunk_candidate_files sFix (str "x/b") 0 1).2.1 pFix 1 (by decide)
      (⟨[(str "h/p", pFix)], some ⟨str "h/b", 0, 1⟩⟩ : CMState Nat)
      ([str "h/b"], str "h/p") (by decide)
  exact h.1

/-- C9: constructing a `Playlist` from a URL containing `/` always succeeds
and sets `baseUrl` to exactly the prefix up to and including the last `/`
(the base URL ends in `/` and is followed by a separator-free remainder
that reassembles the URL); constructing from a URL with no `/` always
throws, and in that case `processHlsPlaylist` re-throws and leaves the
registry state unchanged. -/
theorem playlist_baseUrl_spec (url : Str) (m : Manifest) :
    ('/' ∈ url →
      ∃ p, mkPlaylist url m = some p ∧ p.url = url ∧ p.manifest = m ∧
        ∃ rest, p.baseUrl ++ rest = url ∧ '/' ∉ rest ∧
          p.baseUrl.getLast? = some '/') ∧
    ('/' ∉ url →
      mkPlaylist url m = none ∧
      ∀ (κ ε : Type) (parse : Str → Except ε Manifest) (s : CMState κ)
        (content : Str) (m' : Manifest), parse content = Except.ok m' →
          ChunkManager.processHlsPlaylist parse s url content =
            (s, Except.error (JsError.thrown (str "Unexpected playlist URL format")))) := by
  constructor
  · intro hmem
    rcases hidx : lastIndexOf '/' url with _ | pos
    · exact absurd hmem (lastIndexOf_eq_none_iff.mp hidx)
    · obtain ⟨pre, post, heq, hlen, hpost⟩ := lastIndexOf_split hidx
      have htake : url.take (pos + 1) = pre ++ ['/'] := by
        rw [← hlen, heq]
        exact take_append_cons pre '/' post
      refine ⟨⟨url, url.take (pos + 1), m⟩, by simp [mkPlaylist, hidx], rfl, rfl,
        post, ?_, hpost, ?_⟩
      · rw [htake, heq]
        simp
      · rw [htake]
        simp
  · intro hnot
    have hidx : lastIndexOf '/' url = none := lastIndexOf_eq_none_iff.mpr hnot
    refine ⟨by simp [mkPlaylist, hidx], ?_⟩
    intro κ ε parse s content m' hparse
    simp [ChunkManager.processHlsPlaylist, hparse, mkPlaylist, hidx]

/-- Witness for C9: the separator-free URL `abc` makes the constructor
throw. -/
theorem playlist_baseUrl_spec_witness :
    mkPlaylist (str "abc") mFix = none :=
  ((playlist_baseUrl_spec (str "abc") mFix).2 (by decide)).1

/-- C4: whenever `loadHlsPlaylist(url)` fails — fetch error, parse error,
or the no-path-separator constructor error — the resulting registry holds
no entry for `url`, every other URL's registry entry is unchanged, and the
original error is the one re-thrown to the caller. -/
theorem loadHlsPlaylist_failure_rollback {κ ε : Type} (fetchResult : Except ε Str)
    (parse : Str → Except ε Manifest) (s : CMState κ) (url : Str)
    {s' : CMState κ} {r : Except (JsError ε) Str}
    (h : ChunkManager.loadHlsPlaylist fetchResult parse s url = (s', r)) :
    (∀ e, r = Except.error e →
      mapGet url s'.playlists = none ∧
      ∀ u, u ≠ url → mapGet u s'.playlists = mapGet u s.playlists) ∧
    (∀ e0, fetchResult = Except.error e0 → r = Except.error (JsError.ext e0)) ∧
    (∀ content e1, fetchResult = Except.ok content → parse content = Except.error e1 →
      r = Except.error (JsError.ext e1)) ∧
    (∀ content m, fetchResult = Except.ok content → parse content = Except.ok m →
      mkPlaylist url m = none →
      r = Except.error (JsError.thrown (str "Unexpected playlist URL format"))) := by
  rcases fetchResult with e0 | content
  · have hcomp : ChunkManager.loadHlsPlaylist (Except.error e0) parse s url =
        ({ s with playlists := mapDelete url s.playlists }, Except.error (JsError.ext e0)) := by
      simp [ChunkManager.loadHlsPlaylist]
    rw [hcomp] at h
    obtain ⟨hs, hr⟩ := Prod.mk.inj h
    subst hs
    subst hr
    refine ⟨?_, ?_, ?_, ?_⟩
    · intro e _
      exact ⟨mapGet_mapDelete_self url s.playlists,
        fun u hu => mapGet_mapDelete_ne hu s.playlists⟩
    · intro e0' he
      injection he with he
      rw [he]
    · intro content e1 hcon
      exact absurd hcon (by simp)
    · intro content m hcon
      exact absurd hcon (by simp)
  · rcases hp : parse content with e1 | m
    · have hcomp : ChunkManager.loadHlsPlaylist (Except.ok content) parse s url =
          ({ s with playlists := mapDelete url s.playlists },
            Except.error (JsError.ext e1)) := by
        simp [ChunkManager.loadHlsPlaylist, ChunkManager.processHlsPlaylist, hp]
      rw [hcomp] at h
      obtain ⟨hs, hr⟩ := Prod.mk.inj h
      subst hs
      subst hr
      refine ⟨?_, ?_, ?_, ?_⟩
      · intro e _
        exact ⟨mapGet_mapDelete_self url s.playlists,
          fun u hu => mapGet_mapDelete_ne hu s.playlists⟩
      · intro e0' he
        exact absurd he (by simp)
      · intro content' e1' hc1 hc2
        injection hc1 with hc1
        rw [← hc1] at hc2
        rw [hp] at hc2
        injection hc2 with hc2
        rw [hc2]
      · intro content' m' hc1 hc2
        injection hc1 with hc1
        rw [← hc1] at hc2
        rw [hp] at hc2
        exact absurd hc2 (by simp)
    · rcases hm : mkPlaylist url m with _ | p
      · have hcomp : ChunkManager.loadHlsPlaylist (Except.ok content) parse s url =
            ({ s with playlists := mapDelete url s.playlists },
              Except.error (JsError.thrown (str "Unexpected playlist URL format"))) := by
          simp [ChunkManager.loadHlsPlaylist, ChunkManager.processHlsPlaylist, hp, hm]
        rw [hcomp] at h
        obtain ⟨hs, hr⟩ := Prod.mk.inj h
        subst hs
        subst hr
        refine ⟨?_, ?_, ?_, ?_⟩
        · intro e _
          exact ⟨mapGet_mapDelete_self url s.playlists,
            fun u hu => mapGet_mapDelete_ne hu s.playlists⟩
        · intro e0' he
          exact absurd he (by simp)
        · intro content' e1' hc1 hc2
          injection hc1 with hc1
          rw [← hc1] at hc2
          rw [hp] at hc2
          exact absurd hc2 (by simp)
        · intro content' m' hc1 hc2 hc3
          rfl
      · by_cases hlim : p.limitedContentAvail = true
        · have hsome := getLimitedContent_eq_of_avail hlim (p.manifest.segments.length / 2)
          have hcomp : ChunkManager.loadHlsPlaylist (Except.ok content) parse s url =
              ({ s with playlists := mapSet url p s.playlists },
                Except.ok (str "#EXTM3U\n#EXT-X-VERSION:3\n"
                  ++ optionalTag (str "#EXT-X-PLAYLIST-TYPE:") p.manifest.playlistType
                  ++ optionalTag (str "#EXT-X-TARGETDURATION:") p.manifest.targetDuration
                  ++ optionalTag (str "#EXT-X-MEDIA-SEQUENCE:") p.manifest.mediaSequence
                  ++ optionalTag (str "#EXT-X-DISCONTINUITY-SEQUENCE:")
                      p.manifest.discontinuitySequence
                  ++ ((p.manifest.segments.take
                        (p.manifest.segments.length - p.manifest.segments.length / 2)).map
                        segmentPair).flatten)) := by
            simp [ChunkManager.loadHlsPlaylist, ChunkManager.processHlsPlaylist, hp, hm,
              hlim, hsome]
          rw [hcomp] at h
          obtain ⟨hs, hr⟩ := Prod.mk.inj h
          subst hs
          subst hr
          refine ⟨?_, ?_, ?_, ?_⟩
          · intro e he
            exact absurd he (by simp)
          · intro e0' he
            exact absurd he (by simp)
          · intro content' e1' hc1 hc2
            injection hc1 with hc1
            rw [← hc1] at hc2
            rw [hp] at hc2
            exact absurd hc2 (by simp)
          · intro content' m' hc1 hc2 hc3
            injection hc1 with hc1
            rw [← hc1] at hc2
            rw [hp] at hc2
            injection hc2 with hc2
            rw [← hc2] at hc3
            rw [hm] at hc3
            exact absurd hc3 (by simp)
        · have hcomp : ChunkManager.loadHlsPlaylist (Except.ok content) parse s url =
              ({ s with playlists := mapSet url p s.playlists }, Except.ok content) := by
            simp [ChunkManager.loadHlsPlaylist, ChunkManager.processHlsPlaylist, hp, hm, hlim]
          rw [hcomp] at h
          obtain ⟨hs, hr⟩ := Prod.mk.inj h
          subst hs
          subst hr
          refine ⟨?_, ?_, ?_, ?_⟩
          · intro e he
            exact absurd he (by simp)
          · intro e0' he
            exact absurd he (by simp)
          · intro content' e1' hc1 hc2
            injection hc1 with hc1
            rw [← hc1] at hc2
            rw [hp] at hc2
            exact absurd hc2 (by simp)
          · intro content' m' hc1 hc2 hc3
            injection hc1 with hc1
            rw [← hc1] at hc2
            rw [hp] at hc2
            injection hc2 with hc2
            rw [← hc2] at hc3
            rw [hm] at hc3
            exact absurd hc3 (by simp)

/-- Witness for C4: a fetch failure on registry `sFix` deletes the entry
for the fetched URL and re-throws the fetch error. -/
theorem loadHlsPlaylist_failure_rollback_witness :
    mapGet (str "h/p")
      (ChunkManager.loadHlsPlaylist (Except.error 5)
        (fun _ => (Except.ok mFix : Except Nat Manifest)) sFix (str "h/p")).1.playlists
      = none := by
  have h := loadHlsPlaylist_failure_rollback (Except.error 5)
      (fun _ => (Except.ok mFix : Except Nat Manifest)) sFix (str "h/p") rfl
  exact (h.1 (JsError.ext 5) (h.2.1 5 rfl)).1

/-- C6: over a live manifest (no end marker) with `N ≥ 1` segments and any
`k ≤ N`, `getLimitedContent k` succeeds and returns exactly the document
the spec describes for `renderTruncated(k)` — fixed two-line header, each
optional tag iff its field is truthy, then duration/URI pairs for precisely
the first `N − k` segments in original order, and nothing after them (no
end marker). -/
theorem getLimitedContent_renders_spec (p : Playlist) (k : Nat)
    (hlive : p.manifest.endList = false) (hne : p.manifest.segments ≠ [])
    (hk : k ≤ p.manifest.segments.length) :
    p.getLimitedContent k = some (renderTruncatedSpec p.manifest k) ∧
    (p.manifest.segments.rdrop k).length = p.manifest.segments.length - k ∧
    p.manifest.segments.rdrop k =
      p.manifest.segments.take (p.manifest.segments.length - k) := by
  have hl : 0 < p.manifest.segments.length := List.length_pos.mpr hne
  have hlim : p.limitedContentAvail = true := by
    simp [Playlist.limitedContentAvail, hlive, hl]
  refine ⟨?_, ?_, rfl⟩
  · rw [getLimitedContent_eq_of_avail hlim k]
    rfl
  · rw [List.rdrop, List.length_take]
    exact Nat.min_eq_left (Nat.sub_le _ _)

/-- Witness for C6: truncating `mFix` (two live segments) by `k = 1` keeps
exactly the first segment's pair. -/
theorem getLimitedContent_renders_spec_witness :
    Playlist.getLimitedContent pFix 1 = some (renderTruncatedSpec mFix 1) :=
  (getLimitedContent_renders_spec pFix 1 rfl (by decide) (by decide)).1

/-- C10: for a live manifest with `N ≥ 1` segments and any limit `k ≥ N`,
`getLimitedContent k` does not fail: the loop bound `N − k` is non-positive
so it returns the fixed header plus the applicable optional tags and zero
segment pairs. -/
theorem getLimitedContent_large_limit (p : Playlist) (k : Nat)
    (hlive : p.manifest.endList = false) (hne : p.manifest.segments ≠ [])
    (hk : p.manifest.segments.length ≤ k) :
    p.getLimitedContent k =
      some (str "#EXTM3U\n#EXT-X-VERSION:3\n"
        ++ optionalTag (str "#EXT-X-PLAYLIST-TYPE:") p.manifest.playlistType
        ++ optionalTag (str "#EXT-X-TARGETDURATION:") p.manifest.targetDuration
        ++ optionalTag (str "#EXT-X-MEDIA-SEQUENCE:") p.manifest.mediaSequence
        ++ optionalTag (str "#EXT-X-DISCONTINUITY-SEQUENCE:")
            p.manifest.discontinuitySequence) := by
  have hl : 0 < p.manifest.segments.length := List.length_pos.mpr hne
  have hlim : p.limitedContentAvail = true := by
    simp [Playlist.limitedContentAvail, hlive, hl]
  rw [getLimitedContent_eq_of_avail hlim k, Nat.sub_eq_zero_of_le hk]
  simp

/-- Witness for C10: `pFix` has two segments; a limit of `5` still renders
a document, with zero pairs. -/
theorem getLimitedContent_large_limit_witness :
    Playlist.getLimitedContent pFix 5 =
      some (str "#EXTM3U\n#EXT-X-VERSION:3\n"
        ++ optionalTag (str "#EXT-X-PLAYLIST-TYPE:") mFix.playlistType
        ++ optionalTag (str "#EXT-X-TARGETDURATION:") mFix.targetDuration
        ++ optionalTag (str "#EXT-X-MEDIA-SEQUENCE:") mFix.mediaSequence
        ++ optionalTag (str "#EXT-X-DISCONTINUITY-SEQUENCE:")
            mFix.discontinuitySequence) :=
  getLimitedContent_large_limit pFix 5 rfl (by decide) (by decide)

/-- C7 counterexample: for the URL `abc` — no path separator — whose
fetched text parses successfully into the live manifest `mFix`,
`loadHlsPlaylist` returns neither a truncated document nor the raw text:
it re-throws the playlist-URL-format error. -/
theorem loadHlsPlaylist_no_separator_counterexample :
    (ChunkManager.loadHlsPlaylist (Except.ok (str "t"))
        (fun _ => (Except.ok mFix : Except Unit Manifest))
        (⟨[], none⟩ : CMState Nat) (str "abc")).2 =
      Except.error (JsError.thrown (str "Unexpected playlist URL format")) := rfl

/-- C7 (amended): for every url for which the `Playlist` constructor
succeeds (the url contains a path separator) and whose fetched text parses
successfully, `loadHlsPlaylist` stores the playlist and returns the
truncated document `renderTruncated(trunc(segmentCount / 2))` when the
stored playlist has limitable content, and the raw fetched text unchanged
otherwise. -/
theorem loadHlsPlaylist_returns_limited_or_raw {κ ε : Type}
    (parse : Str → Except ε Manifest) (s : CMState κ) (url content : Str)
    (m : Manifest) (hparse : parse content = Except.ok m)
    {p : Playlist} (hp : mkPlaylist url m = some p) :
    (p.limitedContentAvail = true →
      ∃ doc, p.getLimitedContent (p.manifest.segments.length / 2) = some doc ∧
        ChunkManager.loadHlsPlaylist (Except.ok content) parse s url =
          ({ s with playlists := mapSet url p s.playlists }, Except.ok doc)) ∧
    (p.limitedContentAvail = false →
      ChunkManager.loadHlsPlaylist (Except.ok content) parse s url =
        ({ s with playlists := mapSet url p s.playlists }, Except.ok content)) := by
  constructor
  · intro hlim
    have hsome := getLimitedContent_eq_of_avail hlim (p.manifest.segments.length / 2)
    exact ⟨_, hsome, by
      simp [ChunkManager.loadHlsPlaylist, ChunkManager.processHlsPlaylist, hparse, hp,
        hlim, hsome]⟩
  · intro hlim
    simp [ChunkManager.loadHlsPlaylist, ChunkManager.processHlsPlaylist, hparse, hp, hlim]

/-- Witness for the amended C7: a VOD playlist (`mVod`, end-list marker
present) is stored and the raw fetched text comes back unchanged. -/
theorem loadHlsPlaylist_returns_limited_or_raw_witness :
    ChunkManager.loadHlsPlaylist (Except.ok (str "t"))
        (fun _ => (Except.ok mVod : Except Unit Manifest))
        (⟨[], none⟩ : CMState Nat) (str "h/v") =
      (⟨[(str "h/v", ⟨str "h/v", str "h/", mVod⟩)], none⟩, Except.ok (str "t")) := by
  have h := (loadHlsPlaylist_returns_limited_or_raw
      (fun _ => (Except.ok mVod : Except Unit Manifest)) (⟨[], none⟩ : CMState Nat)
      (str "h/v") (str "t") mVod rfl
      (show mkPlaylist (str "h/v") mVod = some ⟨str "h/v", str "h/", mVod⟩ by decide)).2
      (by decide)
  exact h.trans rfl

end PML
